import Mathlib

/-!
# Verification of the `AuditLoggingService` subsystem

Shallow embedding of `src/services/audit-logging.service.ts`.

The service is a thin layer over an external durable store (Prisma) and two
platform builtins (`JSON.stringify`/`JSON.parse` and `Date`).  The store is
modelled as a `List StoredLog` with `create` / `findMany` / `deleteMany`
primitives; time is modelled as `Int` milliseconds with a fixed-offset clock
(one calendar day = 86,400,000 ms; DST shifts are out of scope); the JSON
builtins are modelled by an executable serializer and recursive-descent
parser over `List Char` (whitespace-free JSON, which is the exact image of
the serializer; escape sequences cover `"` and `\`).  The service functions
themselves (`logAuditEvent`, `logPermissionChange`, `logRoleChange`,
`queryAuditLogs`, `deleteOldLogs`, `exportAuditLogs`) are translated
line-by-line from the source, including JavaScript truthiness on filter
fields (`filter.limit || 100` etc.).
-/

namespace AuditSpec

/-- A JSON value, as produced by callers for the `changes` / `metadata`
payloads.  Strings are kept as `List Char` so that serialization and parsing
are plain list recursions.  Numbers are restricted to integers (the service
only ever stores counts and identifiers; float formatting is external). -/
inductive Json where
  | jnull : Json
  | jbool (b : Bool) : Json
  | jnum (i : Int) : Json
  | jstr (s : List Char) : Json
  | jarr (elems : List Json) : Json
  | jobj (fields : List (List Char × Json)) : Json
deriving Repr

/-- Escape a string body for JSON output: `"` and `\` get a backslash. -/
def escChars : List Char → List Char
  | [] => []
  | c :: cs => if c = '"' || c = '\\' then '\\' :: c :: escChars cs else c :: escChars cs

/-- Decimal digits of `n`, most significant first (empty for `0`). -/
def msdChars (n : Nat) : List Char := (Nat.digits 10 n).reverse.map Nat.digitChar

/-- Decimal rendering of a natural number (model of `JSON.stringify` on ℕ). -/
def serNat (n : Nat) : List Char := if n = 0 then ['0'] else msdChars n

/-- Decimal rendering of an integer. -/
def serNum (i : Int) : List Char := if i < 0 then '-' :: serNat i.natAbs else serNat i.toNat

mutual
/-- Model of `JSON.stringify`: compact (whitespace-free) JSON text. -/
def serialize : Json → List Char
  | Json.jnull => ['n', 'u', 'l', 'l']
  | Json.jbool true => ['t', 'r', 'u', 'e']
  | Json.jbool false => ['f', 'a', 'l', 's', 'e']
  | Json.jnum i => serNum i
  | Json.jstr s => '"' :: (escChars s ++ ['"'])
  | Json.jarr xs => '[' :: (serListItems xs ++ [']'])
  | Json.jobj ps => '{' :: (serObjItems ps ++ ['}'])

/-- Comma-separated serialization of array elements. -/
def serListItems : List Json → List Char
  | [] => []
  | x :: xs => serialize x ++ serListTail xs

/-- The `, elem` repetitions after the first array element. -/
def serListTail : List Json → List Char
  | [] => []
  | x :: xs => ',' :: (serialize x ++ serListTail xs)

/-- Serialization of one `"key":value` object member. -/
def serPair : List Char × Json → List Char
  | (k, v) => '"' :: (escChars k ++ '"' :: ':' :: serialize v)

/-- Comma-separated serialization of object members. -/
def serObjItems : List (List Char × Json) → List Char
  | [] => []
  | p :: ps => serPair p ++ serObjTail ps

/-- The `, "key":value` repetitions after the first object member. -/
def serObjTail : List (List Char × Json) → List Char
  | [] => []
  | p :: ps => ',' :: (serPair p ++ serObjTail ps)
end

/-- Consume an expected literal continuation (e.g. `ull` after `n`). -/
def dropLit : List Char → List Char → Option (List Char)
  | [], input => some input
  | _ :: _, [] => none
  | p :: ps, c :: cs => if c = p then dropLit ps cs else none

/-- Parse the body of a JSON string after the opening quote, up to the
unescaped closing quote; a backslash takes the next character literally. -/
def parseStrBody : List Char → Option (List Char × List Char)
  | [] => none
  | c :: cs =>
    if c = '\\' then
      match cs with
      | [] => none
      | d :: ds => (parseStrBody ds).map fun r => (d :: r.1, r.2)
    else if c = '"' then some ([], cs)
    else (parseStrBody cs).map fun r => (c :: r.1, r.2)

/-- Accumulate decimal digits; stops at the first non-digit. -/
def parseNatAux (acc : Nat) : List Char → Nat × List Char
  | [] => (acc, [])
  | c :: cs => if c.isDigit then parseNatAux (acc * 10 + (c.toNat - 48)) cs else (acc, c :: cs)

/-- Parse the digits after a leading minus sign. -/
def parseNeg : List Char → Option (Json × List Char)
  | [] => none
  | d :: ds =>
    if d.isDigit then
      let r := parseNatAux 0 (d :: ds)
      some (Json.jnum (-(r.1 : Int)), r.2)
    else none

mutual
/-- Model of `JSON.parse` (one value): fueled recursive-descent parser.
Dispatches on the first character. -/
def parseVal : Nat → List Char → Option (Json × List Char)
  | 0, _ => none
  | _ + 1, [] => none
  | fuel + 1, c :: cs =>
    if c = 'n' then (dropLit ['u', 'l', 'l'] cs).map fun r => (Json.jnull, r)
    else if c = 't' then (dropLit ['r', 'u', 'e'] cs).map fun r => (Json.jbool true, r)
    else if c = 'f' then (dropLit ['a', 'l', 's', 'e'] cs).map fun r => (Json.jbool false, r)
    else if c = '"' then (parseStrBody cs).map fun r => (Json.jstr r.1, r.2)
    else if c = '[' then (parseItems fuel cs).map fun r => (Json.jarr r.1, r.2)
    else if c = '{' then (parsePairs fuel cs).map fun r => (Json.jobj r.1, r.2)
    else if c = '-' then parseNeg cs
    else if c.isDigit then
      let r := parseNatAux 0 (c :: cs)
      some (Json.jnum (r.1 : Int), r.2)
    else none

/-- After `[`: empty array or first element then repetitions. -/
def parseItems : Nat → List Char → Option (List Json × List Char)
  | 0, _ => none
  | _ + 1, [] => none
  | fuel + 1, c :: cs =>
    if c = ']' then some ([], cs)
    else
      match parseVal fuel (c :: cs) with
      | some (j, rest1) => (parseMore fuel rest1).map fun r => (j :: r.1, r.2)
      | none => none

/-- After one array element: `]` closes, `,` continues. -/
def parseMore : Nat → List Char → Option (List Json × List Char)
  | 0, _ => none
  | _ + 1, [] => none
  | fuel + 1, c :: cs =>
    if c = ']' then some ([], cs)
    else if c = ',' then
      match parseVal fuel cs with
      | some (j, rest1) => (parseMore fuel rest1).map fun r => (j :: r.1, r.2)
      | none => none
    else none

/-- One `"key":value` object member. -/
def parsePair1 : Nat → List Char → Option ((List Char × Json) × List Char)
  | 0, _ => none
  | _ + 1, [] => none
  | fuel + 1, c :: cs =>
    if c = '"' then
      match parseStrBody cs with
      | some (k, rest1) =>
        match rest1 with
        | [] => none
        | d :: rest2 =>
          if d = ':' then
            match parseVal fuel rest2 with
            | some (v, rest3) => some ((k, v), rest3)
            | none => none
          else none
      | none => none
    else none

/-- After `{`: empty object or first member then repetitions. -/
def parsePairs : Nat → List Char → Option (List (List Char × Json) × List Char)
  | 0, _ => none
  | _ + 1, [] => none
  | fuel + 1, c :: cs =>
    if c = '}' then some ([], cs)
    else
      match parsePair1 fuel (c :: cs) with
      | some (kv, rest1) => (parsePairsMore fuel rest1).map fun r => (kv :: r.1, r.2)
      | none => none

/-- After one object member: `}` closes, `,` continues. -/
def parsePairsMore : Nat → List Char → Option (List (List Char × Json) × List Char)
  | 0, _ => none
  | _ + 1, [] => none
  | fuel + 1, c :: cs =>
    if c = '}' then some ([], cs)
    else if c = ',' then
      match parsePair1 fuel cs with
      | some (kv, rest1) => (parsePairsMore fuel rest1).map fun r => (kv :: r.1, r.2)
      | none => none
    else none
end

/-- Model of `JSON.parse` on a whole stored string: the input must be one
JSON value consuming the entire text, otherwise the parse throws (modelled
as `Except.error`). -/
def parseJson (s : List Char) : Except String Json :=
  match parseVal (2 * s.length + 2) s with
  | some (j, []) => Except.ok j
  | _ => Except.error "malformed JSON"

/-- The characters that may legally follow a serialized value inside a
larger serialization (or nothing at all). -/
def stopHead : List Char → Prop
  | [] => True
  | c :: _ => c = ',' ∨ c = ']' ∨ c = '}'

/-! ### The audit-logging service data model (from the source) -/

/-- `AuditActionType` enum from the source (closed set of string values). -/
inductive AuditActionType where
  | USER_CREATED | USER_UPDATED | USER_DELETED | USER_ACTIVATED | USER_DEACTIVATED
  | PERMISSION_GRANTED | PERMISSION_REVOKED | ROLE_CHANGED | ROLE_CREATED
  | ROLE_UPDATED | ROLE_DELETED
  | BULK_OPERATION_STARTED | BULK_OPERATION_COMPLETED | BULK_OPERATION_FAILED
  | SETTING_CHANGED | SETTINGS_EXPORTED | SETTINGS_IMPORTED
  | LOGIN | LOGOUT | FAILED_LOGIN | PASSWORD_CHANGED | MFA_ENABLED | MFA_DISABLED
deriving DecidableEq, Repr

/-- The string value of each enum member (used by the CSV export). -/
def actionTypeStr : AuditActionType → String
  | .USER_CREATED => "USER_CREATED"
  | .USER_UPDATED => "USER_UPDATED"
  | .USER_DELETED => "USER_DELETED"
  | .USER_ACTIVATED => "USER_ACTIVATED"
  | .USER_DEACTIVATED => "USER_DEACTIVATED"
  | .PERMISSION_GRANTED => "PERMISSION_GRANTED"
  | .PERMISSION_REVOKED => "PERMISSION_REVOKED"
  | .ROLE_CHANGED => "ROLE_CHANGED"
  | .ROLE_CREATED => "ROLE_CREATED"
  | .ROLE_UPDATED => "ROLE_UPDATED"
  | .ROLE_DELETED => "ROLE_DELETED"
  | .BULK_OPERATION_STARTED => "BULK_OPERATION_STARTED"
  | .BULK_OPERATION_COMPLETED => "BULK_OPERATION_COMPLETED"
  | .BULK_OPERATION_FAILED => "BULK_OPERATION_FAILED"
  | .SETTING_CHANGED => "SETTING_CHANGED"
  | .SETTINGS_EXPORTED => "SETTINGS_EXPORTED"
  | .SETTINGS_IMPORTED => "SETTINGS_IMPORTED"
  | .LOGIN => "LOGIN"
  | .LOGOUT => "LOGOUT"
  | .FAILED_LOGIN => "FAILED_LOGIN"
  | .PASSWORD_CHANGED => "PASSWORD_CHANGED"
  | .MFA_ENABLED => "MFA_ENABLED"
  | .MFA_DISABLED => "MFA_DISABLED"

/-- `AuditSeverity` enum from the source. -/
inductive AuditSeverity where
  | INFO | WARNING | CRITICAL
deriving DecidableEq, Repr

def severityStr : AuditSeverity → String
  | .INFO => "INFO"
  | .WARNING => "WARNING"
  | .CRITICAL => "CRITICAL"

/-- `AuditLogEntry` interface: the caller-facing event description.
`changes` / `metadata` have TypeScript type `Record<string, any>`, i.e. a
JSON object (a list of key/value fields); object values are always truthy
in JavaScript, so presence is modelled by `Option`. -/
structure AuditLogEntry where
  actionType : AuditActionType
  severity : AuditSeverity
  userId : String
  tenantId : String
  targetUserId : Option String
  targetResourceId : Option String
  targetResourceType : Option String
  description : String
  changes : Option (List (List Char × Json))
  metadata : Option (List (List Char × Json))
  ipAddress : Option String
  userAgent : Option String
deriving Repr

/-- A persisted `auditLog` row: `changes` / `metadata` are stored as the
opaque serialized string (or SQL `null`), `timestamp` is set by the
recorder (`Int` milliseconds). -/
structure StoredLog where
  actionType : AuditActionType
  severity : AuditSeverity
  userId : String
  tenantId : String
  targetUserId : Option String
  targetResourceId : Option String
  targetResourceType : Option String
  description : String
  changes : Option (List Char)
  metadata : Option (List Char)
  ipAddress : Option String
  userAgent : Option String
  timestamp : Int
deriving Repr

/-- The shape returned by `queryAuditLogs`: the row spread with `changes` /
`metadata` replaced by their parsed (structured) form. -/
structure QueryRow where
  actionType : AuditActionType
  severity : AuditSeverity
  userId : String
  tenantId : String
  targetUserId : Option String
  targetResourceId : Option String
  targetResourceType : Option String
  description : String
  changes : Option Json
  metadata : Option Json
  ipAddress : Option String
  userAgent : Option String
  timestamp : Int
deriving Repr

/-- A filter field that is either a single enum value or an array of them
(`AuditActionType | AuditActionType[]` in the source). -/
inductive EnumSel (α : Type) where
  | one (a : α)
  | many (as : List α)
deriving Repr

/-- `dateRange: { startDate, endDate }`. -/
structure DateRange where
  startDate : Int
  endDate : Int
deriving Repr

/-- `AuditLogFilter` interface from the source. -/
structure AuditLogFilter where
  userId : Option String
  tenantId : String
  actionType : Option (EnumSel AuditActionType)
  targetUserId : Option String
  severity : Option (EnumSel AuditSeverity)
  dateRange : Option DateRange
  limit : Option Nat
  offset : Option Nat
deriving Repr

/-! ### The store's `where` objects and their evaluation -/

/-- A timestamp condition object as passed to the store
(`{ gte, lte }` in queries, `{ lt }` in the retention sweep). -/
structure TsCond where
  gte : Option Int
  lte : Option Int
  lt : Option Int
deriving Repr

/-- The `where` object the service builds for `findMany` / `deleteMany`.
`tenantId` is a plain (non-optional) field because every builder in the
source assigns it unconditionally. -/
structure WhereClause where
  tenantId : String
  userId : Option String
  actionType : Option (EnumSel AuditActionType)
  targetUserId : Option String
  severity : Option (EnumSel AuditSeverity)
  timestampCond : Option TsCond
deriving Repr

/-- JavaScript truthiness of an optional string (`undefined` and `""` are
falsy). -/
def truthyStr : Option String → Bool
  | none => false
  | some s => decide (s ≠ "")

/-- Store-side evaluation of a `where` object against one row (the external
store's filter semantics: conjunction of per-field predicates; an `in`-list
is set membership). -/
def rowMatches (w : WhereClause) (r : StoredLog) : Bool :=
  (r.tenantId == w.tenantId)
  && (match w.userId with
      | none => true
      | some s => r.userId == s)
  && (match w.actionType with
      | none => true
      | some (EnumSel.one a) => decide (r.actionType = a)
      | some (EnumSel.many as) => as.any fun a => decide (r.actionType = a))
  && (match w.targetUserId with
      | none => true
      | some s => r.targetUserId == some s)
  && (match w.severity with
      | none => true
      | some (EnumSel.one a) => decide (r.severity = a)
      | some (EnumSel.many as) => as.any fun a => decide (r.severity = a))
  && (match w.timestampCond with
      | none => true
      | some c =>
        (match c.gte with | none => true | some b => decide (b ≤ r.timestamp))
        && (match c.lte with | none => true | some b => decide (r.timestamp ≤ b))
        && (match c.lt with | none => true | some b => decide (r.timestamp < b)))

/-- Insertion step for `orderBy: { timestamp: 'desc' }`. -/
def insertTsDesc (r : StoredLog) : List StoredLog → List StoredLog
  | [] => [r]
  | x :: xs => if x.timestamp < r.timestamp then r :: x :: xs else x :: insertTsDesc r xs

/-- Newest-first ordering of the matched rows. -/
def sortByTsDesc (l : List StoredLog) : List StoredLog := l.foldr insertTsDesc []

/-- The store's `findMany({ where, orderBy: timestamp desc, take, skip })`. -/
def findMany (db : List StoredLog) (w : WhereClause) (skip take' : Nat) : List StoredLog :=
  ((sortByTsDesc (db.filter (rowMatches w))).drop skip).take take'

/-- The store's `deleteMany({ where })`: returns the deleted count and the
remaining rows. -/
def deleteMany (db : List StoredLog) (w : WhereClause) : Nat × List StoredLog :=
  ((db.filter (rowMatches w)).length, db.filter fun r => !(rowMatches w r))

/-! ### Service operations (translated from `audit-logging.service.ts`) -/

/-- The row built by `logAuditEvent`'s `prisma.auditLog.create` call
(source lines 94–110): `changes`/`metadata` are `JSON.stringify`-ed when
present (objects are always truthy), `timestamp: new Date()`. -/
def storedRowOf (entry : AuditLogEntry) (now : Int) : StoredLog :=
  { actionType := entry.actionType
    severity := entry.severity
    userId := entry.userId
    tenantId := entry.tenantId
    targetUserId := entry.targetUserId
    targetResourceId := entry.targetResourceId
    targetResourceType := entry.targetResourceType
    description := entry.description
    changes := entry.changes.map fun fields => serialize (Json.jobj fields)
    metadata := entry.metadata.map fun fields => serialize (Json.jobj fields)
    ipAddress := entry.ipAddress
    userAgent := entry.userAgent
    timestamp := now }

/-- The store's `create` primitive; `storeFails` selects the store's
behaviour (a failing store raises, modelled as `Except.error`). -/
def prismaCreate (db : List StoredLog) (r : StoredLog) (storeFails : Bool) :
    Except String (List StoredLog) :=
  if storeFails then Except.error "store failure" else Except.ok (db ++ [r])

/-- `logAuditEvent` (source lines 92–115): try to create; on a store error,
`console.error` (diagnostics only, not modelled) and return normally. -/
def logAuditEvent (db : List StoredLog) (now : Int) (entry : AuditLogEntry)
    (storeFails : Bool) : Except String (List StoredLog) :=
  match prismaCreate db (storedRowOf entry now) storeFails with
  | Except.ok db2 => Except.ok db2
  | Except.error _ => Except.ok db

/-- `logPermissionChange` (source lines 120–146): no-op when both lists are
empty, otherwise one event whose action type favours `PERMISSION_GRANTED`
when any addition is present. -/
def logPermissionChange (db : List StoredLog) (now : Int)
    (userId tenantId targetUserId : String)
    (permissionsAdded permissionsRemoved : List String)
    (metadata : Option (List (List Char × Json))) (storeFails : Bool) :
    Except String (List StoredLog) :=
  let hasChanges := decide (permissionsAdded.length > 0) ||
    decide (permissionsRemoved.length > 0)
  if !hasChanges then Except.ok db
  else
    logAuditEvent db now
      { actionType :=
          if permissionsAdded.length > 0 then AuditActionType.PERMISSION_GRANTED
          else AuditActionType.PERMISSION_REVOKED
        severity := AuditSeverity.INFO
        userId := userId
        tenantId := tenantId
        targetUserId := some targetUserId
        targetResourceId := none
        targetResourceType := some "USER_PERMISSIONS"
        description :=
          (if permissionsAdded.length > 0 then "Granted" else "Revoked") ++ " " ++
            toString (permissionsAdded.length + permissionsRemoved.length) ++
            " permission(s) for " ++ targetUserId
        changes := some
          [("added".data, Json.jarr (permissionsAdded.map fun s => Json.jstr s.data)),
           ("removed".data, Json.jarr (permissionsRemoved.map fun s => Json.jstr s.data))]
        metadata := metadata
        ipAddress := none
        userAgent := none } storeFails

/-- `logRoleChange` (source lines 151–179): severity is `CRITICAL` exactly
when the destination role is in `['SUPER_ADMIN', 'ADMIN']`; always records. -/
def logRoleChange (db : List StoredLog) (now : Int)
    (userId tenantId targetUserId fromRole toRole : String)
    (reason : Option String) (storeFails : Bool) : Except String (List StoredLog) :=
  let severity :=
    if (["SUPER_ADMIN", "ADMIN"] : List String).contains toRole then
      AuditSeverity.CRITICAL
    else AuditSeverity.INFO
  logAuditEvent db now
    { actionType := AuditActionType.ROLE_CHANGED
      severity := severity
      userId := userId
      tenantId := tenantId
      targetUserId := some targetUserId
      targetResourceId := none
      targetResourceType := some "USER_ROLE"
      description := "Changed role for " ++ targetUserId ++ " from " ++ fromRole ++
        " to " ++ toRole ++
        (match reason with
         | some rsn => " (" ++ rsn ++ ")"
         | none => "")
      changes := some
        [("fromRole".data, Json.jstr fromRole.data),
         ("toRole".data, Json.jstr toRole.data)]
      metadata := reason.map fun rsn => [("reason".data, Json.jstr rsn.data)]
      ipAddress := none
      userAgent := none } storeFails

/-- The `where` object built by `queryAuditLogs` (source lines 241–270):
`tenantId` unconditionally; the other fields only when truthy; a
`dateRange` becomes `{ gte: startDate, lte: endDate }`. -/
def buildWhere (filter : AuditLogFilter) : WhereClause :=
  { tenantId := filter.tenantId
    userId := if truthyStr filter.userId then filter.userId else none
    actionType := filter.actionType
    targetUserId := if truthyStr filter.targetUserId then filter.targetUserId else none
    severity := filter.severity
    timestampCond := filter.dateRange.map fun dr =>
      { gte := some dr.startDate, lte := some dr.endDate, lt := none } }

/-- `filter.limit || 100` (JavaScript `||`: `0` falls through to the
default). -/
def effLimit (filter : AuditLogFilter) : Nat :=
  match filter.limit with
  | none => 100
  | some l => if l = 0 then 100 else l

/-- `filter.offset || 0`. -/
def effOffset (filter : AuditLogFilter) : Nat :=
  match filter.offset with
  | none => 0
  | some o => if o = 0 then 0 else o

/-- `log.changes ? JSON.parse(log.changes) : null` — a `null` or empty
stored string is falsy and degrades to `null`; otherwise `JSON.parse` runs
and may throw. -/
def parseStoredField : Option (List Char) → Except String (Option Json)
  | none => Except.ok none
  | some s => if s = [] then Except.ok none else (parseJson s).map some

/-- One step of the result mapping in `queryAuditLogs` (source lines
279–283): spread the row, deserializing `changes` then `metadata`. -/
def deserializeRow (r : StoredLog) : Except String QueryRow :=
  match parseStoredField r.changes with
  | Except.error e => Except.error e
  | Except.ok ch =>
    match parseStoredField r.metadata with
    | Except.error e => Except.error e
    | Except.ok md =>
      Except.ok
        { actionType := r.actionType
          severity := r.severity
          userId := r.userId
          tenantId := r.tenantId
          targetUserId := r.targetUserId
          targetResourceId := r.targetResourceId
          targetResourceType := r.targetResourceType
          description := r.description
          changes := ch
          metadata := md
          ipAddress := r.ipAddress
          userAgent := r.userAgent
          timestamp := r.timestamp }

/-- JavaScript `Array.prototype.map` with a callback that can throw: the
first failing element aborts the whole mapping. -/
def exceptMap (f : α → Except String β) : List α → Except String (List β)
  | [] => Except.ok []
  | x :: xs =>
    match f x with
    | Except.error e => Except.error e
    | Except.ok y =>
      match exceptMap f xs with
      | Except.error e => Except.error e
      | Except.ok ys => Except.ok (y :: ys)

/-- `queryAuditLogs` (source lines 240–284). -/
def queryAuditLogs (db : List StoredLog) (filter : AuditLogFilter) :
    Except String (List QueryRow) :=
  exceptMap deserializeRow (findMany db (buildWhere filter) (effOffset filter) (effLimit filter))

/-- One calendar day in milliseconds (fixed-offset clock model of
`Date.setDate`). -/
def msPerDay : Int := 86400000

/-- `deleteOldLogs` (source lines 319–336): cutoff = now − retentionDays
days; `deleteMany({ tenantId, timestamp: { lt: cutoffDate } })`; returns
`result.count`.  (The source defaults `retentionDays` to 90; callers here
pass it explicitly.) -/
def deleteOldLogs (db : List StoredLog) (now : Int) (tenantId : String)
    (retentionDays : Nat) : Nat × List StoredLog :=
  let cutoffDate := now - (retentionDays : Int) * msPerDay
  deleteMany db
    { tenantId := tenantId
      userId := none
      actionType := none
      targetUserId := none
      severity := none
      timestampCond := some { gte := none, lte := none, lt := some cutoffDate } }

/-! ### CSV export -/

/-- Model of `Date.toISOString`: an injective textual rendering of the
timestamp (the concrete ISO-8601 digit layout is external `Date`
behaviour; no claim depends on it). -/
def isoStringOfMs (t : Int) : String := "ts:" ++ toString t

/-- `String(cell).replace(/"/g, '""')` at character level. -/
def dupQuoteChars : List Char → List Char
  | [] => []
  | c :: cs => if c = '"' then '"' :: '"' :: dupQuoteChars cs else c :: dupQuoteChars cs

/-- A quoted CSV field: `"${...}"` around the quote-doubled content. -/
def csvCellChars (s : List Char) : List Char := '"' :: (dupQuoteChars s ++ ['"'])

def csvCell (s : String) : String := String.mk (csvCellChars s.data)

/-- One data row: every cell quoted, joined with commas (source line 376). -/
def csvLine (cells : List String) : String :=
  String.intercalate "," (cells.map csvCell)

/-- The fixed header row (source lines 352–361), joined unquoted. -/
def csvHeaders : List String :=
  ["Timestamp", "Action Type", "Severity", "User ID", "Target User ID",
   "Resource Type", "Description", "IP Address"]

/-- The cells of one exported row, in the fixed column order (source lines
363–372); missing optional fields render as `''`. -/
def csvCellsOf (q : QueryRow) : List String :=
  [isoStringOfMs q.timestamp, actionTypeStr q.actionType, severityStr q.severity,
   q.userId, q.targetUserId.getD "", q.targetResourceType.getD "", q.description,
   q.ipAddress.getD ""]

/-- `{...filter, tenantId, limit: 10000}`: spread the caller's filter, then
override the tenant and the limit (the caller's `offset` survives). -/
def exportFilterOf (tenantId : String) (filter : Option AuditLogFilter) : AuditLogFilter :=
  match filter with
  | none =>
    { userId := none, tenantId := tenantId, actionType := none, targetUserId := none,
      severity := none, dateRange := none, limit := some 10000, offset := none }
  | some f => { f with tenantId := tenantId, limit := some 10000 }

/-- The queried-and-shaped rows of `exportAuditLogs` before text assembly. -/
def exportRows (db : List StoredLog) (tenantId : String)
    (filter : Option AuditLogFilter) : Except String (List (List String)) :=
  (queryAuditLogs db (exportFilterOf tenantId filter)).map fun logs => logs.map csvCellsOf

/-- `exportAuditLogs` (source lines 341–380): query capped at 10,000, then
CSV with an unquoted header line and quoted data cells. -/
def exportAuditLogs (db : List StoredLog) (tenantId : String)
    (filter : Option AuditLogFilter) : Except String String :=
  (exportRows db tenantId filter).map fun rows =>
    String.intercalate "\n" (String.intercalate "," csvHeaders :: rows.map csvLine)

/-! ### A strict-CSV field reader (spec side: used to state that the
export's quoting is lossless) -/

/-- Read a quoted field body (after the opening quote): a doubled quote is
an escaped quote character, a single quote closes the field. -/
def csvFieldBody : List Char → Option (List Char × List Char)
  | [] => none
  | c :: cs =>
    if c = '"' then
      match cs with
      | [] => some ([], [])
      | d :: ds =>
        if d = '"' then (csvFieldBody ds).map fun r => ('"' :: r.1, r.2)
        else some ([], d :: ds)
    else (csvFieldBody cs).map fun r => (c :: r.1, r.2)

/-- Read one complete quoted CSV field. -/
def csvFieldParse : List Char → Option (List Char × List Char)
  | [] => none
  | c :: cs => if c = '"' then csvFieldBody cs else none

/-- What may follow a quoted CSV field: anything not starting with another
quote character (in a CSV row: a comma, a newline, or the end). -/
def headNotQuote : List Char → Prop
  | [] => True
  | c :: _ => c ≠ '"'

/-- The result shape of deserializing a row whose stored payloads are
falsy: all fields copied, `changes`/`metadata` degraded to `null`. -/
def cleanQueryRow (r : StoredLog) : QueryRow :=
  { actionType := r.actionType, severity := r.severity, userId := r.userId,
    tenantId := r.tenantId, targetUserId := r.targetUserId,
    targetResourceId := r.targetResourceId,
    targetResourceType := r.targetResourceType, description := r.description,
    changes := none, metadata := none, ipAddress := r.ipAddress,
    userAgent := r.userAgent, timestamp := r.timestamp }

/-! ### Concrete fixtures used by counterexamples and witnesses -/

/-- A stored row whose `changes` column holds a non-empty string that is
not valid JSON. -/
def badRow : StoredLog :=
  { actionType := AuditActionType.USER_CREATED, severity := AuditSeverity.INFO,
    userId := "u", tenantId := "t", targetUserId := none, targetResourceId := none,
    targetResourceType := none, description := "d", changes := some ['{'],
    metadata := none, ipAddress := none, userAgent := none, timestamp := 0 }

/-- A plain tenant-only filter. -/
def badFilter : AuditLogFilter :=
  { userId := none, tenantId := "t", actionType := none, targetUserId := none,
    severity := none, dateRange := none, limit := none, offset := none }

/-- A well-formed stored row of tenant `"t"` with falsy payloads. -/
def cleanRow : StoredLog :=
  { actionType := AuditActionType.LOGIN, severity := AuditSeverity.INFO,
    userId := "u", tenantId := "t", targetUserId := none, targetResourceId := none,
    targetResourceType := none, description := "d", changes := none,
    metadata := none, ipAddress := none, userAgent := none, timestamp := 0 }

/-- A store with 10,001 matching rows of tenant `"t"`. -/
def bigDb : List StoredLog := List.replicate 10001 cleanRow

/-- A caller filter that carries an explicit `offset` (and a large
`limit`, which the export overrides). -/
def offsetFilter : AuditLogFilter :=
  { userId := none, tenantId := "t", actionType := none, targetUserId := none,
    severity := none, dateRange := none, limit := some 99999, offset := some 2 }

/-- The same caller filter with no offset. -/
def noOffsetFilter : AuditLogFilter :=
  { userId := none, tenantId := "t", actionType := none, targetUserId := none,
    severity := none, dateRange := none, limit := some 99999, offset := none }

/-- A query filter selecting one tenant and a closed timestamp range,
with every other field unspecified. -/
def tenantRangeFilter (tenantId : String) (a b : Int) : AuditLogFilter :=
  { userId := none, tenantId := tenantId, actionType := none, targetUserId := none,
    severity := none, dateRange := some { startDate := a, endDate := b },
    limit := none, offset := none }

/-- A sample entry with structured payloads, exercising the full JSON
serializer (negative number, escapes, nesting). -/
def sampleEntry : AuditLogEntry :=
  { actionType := AuditActionType.ROLE_CHANGED, severity := AuditSeverity.CRITICAL,
    userId := "admin", tenantId := "t", targetUserId := some "bob",
    targetResourceId := none, targetResourceType := some "USER_ROLE",
    description := "promotion",
    changes := some
      [("delta".data, Json.jarr [Json.jnum (-12), Json.jstr "a\"b\\c".data,
        Json.jbool true, Json.jnull, Json.jarr [], Json.jobj []])],
    metadata := some [("reason".data, Json.jstr "audit".data)],
    ipAddress := some "10.0.0.1", userAgent := none }

/-! ### Round-trip: helper lemmas -/

theorem stopHead_nil : stopHead [] := trivial

theorem stopHead_comma (l : List Char) : stopHead (',' :: l) := Or.inl rfl

theorem stopHead_rsquare (l : List Char) : stopHead (']' :: l) := Or.inr (Or.inl rfl)

theorem stopHead_rcurly (l : List Char) : stopHead ('}' :: l) := Or.inr (Or.inr rfl)

theorem dropLit_append (lit rest : List Char) : dropLit lit (lit ++ rest) = some rest := by
  induction lit with
  | nil => rfl
  | cons p ps ih => simp [dropLit, ih]

theorem parseStrBody_esc (s rest : List Char) :
    parseStrBody (escChars s ++ '"' :: rest) = some (s, rest) := by
  induction s with
  | nil =>
    show parseStrBody ('"' :: rest) = some ([], rest)
    unfold parseStrBody
    rw [if_neg (by decide : ¬ ('"' = '\\')), if_pos rfl]
  | cons c cs ih =>
    by_cases h : c = '"' || c = '\\'
    · have hcn : ¬ ('\\' = '"') := by decide
      simp [escChars, h, parseStrBody, ih]
    · have h1 : ¬ c = '"' := by
        intro hc; subst hc; simp at h
      have h2 : ¬ c = '\\' := by
        intro hc; subst hc; simp at h
      simp only [escChars, h, if_false, Bool.false_eq_true, List.cons_append]
      unfold parseStrBody
      rw [if_neg h2, if_neg h1, ih]
      rfl

theorem digitChar_isDigit {d : Nat} (h : d < 10) : (Nat.digitChar d).isDigit = true := by
  interval_cases d <;> decide

theorem digitChar_toNat {d : Nat} (h : d < 10) : (Nat.digitChar d).toNat - 48 = d := by
  interval_cases d <;> decide

/-- A decimal digit character is none of the parser's dispatch or closing
marks. -/
theorem isDigit_ne_marks {c : Char} (h : c.isDigit = true) :
    c ≠ 'n' ∧ c ≠ 't' ∧ c ≠ 'f' ∧ c ≠ '"' ∧ c ≠ '[' ∧ c ≠ '{' ∧ c ≠ '-' ∧
      c ≠ ']' ∧ c ≠ '}' ∧ c ≠ ',' := by
  refine ⟨?_, ?_, ?_, ?_, ?_, ?_, ?_, ?_, ?_, ?_⟩ <;>
    (rintro rfl; exact absurd h (by decide))

theorem stopHead_head_not_digit {c : Char} {l : List Char} (h : stopHead (c :: l)) :
    c.isDigit = false := by
  rcases h with rfl | rfl | rfl <;> decide

theorem parseNatAux_digits (ds : List Char) (hds : ∀ c ∈ ds, c.isDigit = true) :
    ∀ (rest : List Char), stopHead rest → ∀ acc,
      parseNatAux acc (ds ++ rest) =
        (ds.foldl (fun a c => a * 10 + (c.toNat - 48)) acc, rest) := by
  induction ds with
  | nil =>
    intro rest hrest acc
    cases rest with
    | nil => rfl
    | cons c l => simp [parseNatAux, stopHead_head_not_digit hrest]
  | cons c cs ih =>
    intro rest hrest acc
    have hc : c.isDigit = true := hds c (List.mem_cons_self c cs)
    simp only [List.cons_append, parseNatAux, hc, if_true, List.foldl_cons]
    exact ih (fun d hd => hds d (List.mem_cons_of_mem c hd)) rest hrest _

theorem foldl_digitChar (l : List Nat) (h : ∀ d ∈ l, d < 10) (acc : Nat) :
    List.foldl (fun a c => a * 10 + (c.toNat - 48)) acc (l.map Nat.digitChar) =
      List.foldl (fun a d => a * 10 + d) acc l := by
  induction l generalizing acc with
  | nil => rfl
  | cons d ds ih =>
    simp only [List.map_cons, List.foldl_cons]
    rw [digitChar_toNat (h d (List.mem_cons_self d ds))]
    exact ih (fun e he => h e (List.mem_cons_of_mem d he)) _

theorem foldr_ofDigits (l : List Nat) :
    List.foldr (fun d a => a * 10 + d) 0 l = Nat.ofDigits 10 l := by
  induction l with
  | nil => simp [Nat.ofDigits]
  | cons d ds ih => simp [Nat.ofDigits, ih]; ring

theorem foldl_msd (m : Nat) :
    List.foldl (fun a d => a * 10 + d) 0 (Nat.digits 10 m).reverse = m := by
  rw [List.foldl_reverse]
  have : (fun (x : Nat) (y : Nat) => (fun a d => a * 10 + d) y x) =
      fun d a => a * 10 + d := rfl
  rw [this, foldr_ofDigits, Nat.ofDigits_digits]

theorem msdChars_digits (m : Nat) : ∀ c ∈ msdChars m, c.isDigit = true := by
  intro c hc
  simp only [msdChars, List.mem_map, List.mem_reverse] at hc
  obtain ⟨d, hd, rfl⟩ := hc
  exact digitChar_isDigit (Nat.digits_lt_base (by norm_num) hd)

theorem serNat_digits (m : Nat) : ∀ c ∈ serNat m, c.isDigit = true := by
  intro c hc
  unfold serNat at hc
  by_cases h : m = 0
  · simp [h] at hc; subst hc; decide
  · simp only [h, if_false] at hc; exact msdChars_digits m c hc

theorem parseNatAux_serNat (m : Nat) (rest : List Char) (hrest : stopHead rest) :
    parseNatAux 0 (serNat m ++ rest) = (m, rest) := by
  rw [parseNatAux_digits (serNat m) (serNat_digits m) rest hrest 0]
  congr 1
  unfold serNat
  by_cases h : m = 0
  · simp [h]
  · simp only [h, if_false, msdChars]
    rw [foldl_digitChar _ (fun d hd =>
      Nat.digits_lt_base (by norm_num) (List.mem_reverse.mp hd)) 0]
    exact foldl_msd m

/-- Every serialization is nonempty and starts with a character that is not
a closing bracket. -/
theorem serialize_head (j : Json) :
    ∃ c cs, serialize j = c :: cs ∧ c ≠ ']' ∧ c ≠ '}' := by
  cases j with
  | jnull => exact ⟨'n', _, rfl, by decide, by decide⟩
  | jbool b =>
    cases b
    · exact ⟨'f', _, rfl, by decide, by decide⟩
    · exact ⟨'t', _, rfl, by decide, by decide⟩
  | jnum i =>
    show ∃ c cs, serNum i = c :: cs ∧ c ≠ ']' ∧ c ≠ '}'
    unfold serNum
    by_cases hlt : i < 0
    · exact ⟨'-', serNat i.natAbs, by rw [if_pos hlt], by decide, by decide⟩
    · simp only [hlt, if_false]
      unfold serNat
      by_cases h0 : i.toNat = 0
      · exact ⟨'0', [], by simp [h0], by decide, by decide⟩
      · obtain ⟨d, ds, hds⟩ : ∃ d ds, (Nat.digits 10 i.toNat).reverse = d :: ds := by
          rcases hrev : (Nat.digits 10 i.toNat).reverse with _ | ⟨d, ds⟩
          · exact absurd (List.reverse_eq_nil_iff.mp hrev)
              (Nat.digits_ne_nil_iff_ne_zero.mpr h0)
          · exact ⟨d, ds, rfl⟩
        have hd10 : d < 10 := Nat.digits_lt_base (by norm_num)
          (List.mem_reverse.mp (hds ▸ List.mem_cons_self d ds))
        have hdig : (Nat.digitChar d).isDigit = true := digitChar_isDigit hd10
        obtain ⟨_, _, _, _, _, _, _, h8, h9, _⟩ := isDigit_ne_marks hdig
        exact ⟨Nat.digitChar d, ds.map Nat.digitChar, by simp [h0, msdChars, hds], h8, h9⟩
  | jstr s => exact ⟨'"', _, rfl, by decide, by decide⟩
  | jarr xs => exact ⟨'[', _, rfl, by decide, by decide⟩
  | jobj ps => exact ⟨'{', _, rfl, by decide, by decide⟩

theorem serialize_length_pos (j : Json) : 1 ≤ (serialize j).length := by
  obtain ⟨c, cs, h, _, _⟩ := serialize_head j
  simp [h]

theorem serNat_shape (m : Nat) : ∃ c cs, serNat m = c :: cs ∧ c.isDigit = true := by
  unfold serNat
  by_cases h0 : m = 0
  · exact ⟨'0', [], by simp [h0], by decide⟩
  · obtain ⟨d, ds, hds⟩ : ∃ d ds, (Nat.digits 10 m).reverse = d :: ds := by
      rcases hrev : (Nat.digits 10 m).reverse with _ | ⟨d, ds⟩
      · exact absurd (List.reverse_eq_nil_iff.mp hrev)
          (Nat.digits_ne_nil_iff_ne_zero.mpr h0)
      · exact ⟨d, ds, rfl⟩
    have hd10 : d < 10 := Nat.digits_lt_base (by norm_num)
      (List.mem_reverse.mp (hds ▸ List.mem_cons_self d ds))
    exact ⟨Nat.digitChar d, ds.map Nat.digitChar, by simp [h0, msdChars, hds],
      digitChar_isDigit hd10⟩

theorem parseNeg_serNat (m : Nat) (rest : List Char) (hrest : stopHead rest) :
    parseNeg (serNat m ++ rest) = some (Json.jnum (-(m : Int)), rest) := by
  obtain ⟨c, cs, hser, hdig⟩ := serNat_shape m
  have hr := parseNatAux_serNat m rest hrest
  rw [hser] at hr ⊢
  simp only [List.cons_append] at hr ⊢
  show (if c.isDigit = true then
      let r := parseNatAux 0 (c :: (cs ++ rest))
      some (Json.jnum (-(r.1 : Int)), r.2)
    else none) = some (Json.jnum (-(m : Int)), rest)
  rw [if_pos hdig, hr]

theorem stopHead_listTail (xs : List Json) (rest : List Char) :
    stopHead (serListTail xs ++ ']' :: rest) := by
  cases xs with
  | nil => exact stopHead_rsquare rest
  | cons x xs => exact stopHead_comma _

theorem stopHead_objTail (ps : List (List Char × Json)) (rest : List Char) :
    stopHead (serObjTail ps ++ '}' :: rest) := by
  cases ps with
  | nil => exact stopHead_rcurly rest
  | cons p ps => exact stopHead_comma _

/-- The central serialization/parsing round-trip, by strong induction on the
parser fuel: parsing a serialized value (or item list, or member list)
consumes exactly that serialization and returns the original value. -/
theorem parse_ser_all : ∀ n : Nat,
    (∀ j rest, stopHead rest → 2 * (serialize j).length ≤ n →
      parseVal n (serialize j ++ rest) = some (j, rest)) ∧
    (∀ xs rest, stopHead rest → 2 * (serListItems xs).length + 3 ≤ n →
      parseItems n (serListItems xs ++ ']' :: rest) = some (xs, rest)) ∧
    (∀ xs rest, stopHead rest → 2 * (serListTail xs).length + 1 ≤ n →
      parseMore n (serListTail xs ++ ']' :: rest) = some (xs, rest)) ∧
    (∀ p rest, stopHead rest → 2 * (serPair p).length ≤ n →
      parsePair1 n (serPair p ++ rest) = some (p, rest)) ∧
    (∀ ps rest, stopHead rest → 2 * (serObjItems ps).length + 3 ≤ n →
      parsePairs n (serObjItems ps ++ '}' :: rest) = some (ps, rest)) ∧
    (∀ ps rest, stopHead rest → 2 * (serObjTail ps).length + 1 ≤ n →
      parsePairsMore n (serObjTail ps ++ '}' :: rest) = some (ps, rest)) := by
  intro n
  induction n using Nat.strong_induction_on with
  | _ n IH =>
  have IHval : ∀ m, m < n → ∀ j rest, stopHead rest → 2 * (serialize j).length ≤ m →
      parseVal m (serialize j ++ rest) = some (j, rest) := fun m hm => (IH m hm).1
  have IHitems : ∀ m, m < n → ∀ xs rest, stopHead rest →
      2 * (serListItems xs).length + 3 ≤ m →
      parseItems m (serListItems xs ++ ']' :: rest) = some (xs, rest) :=
    fun m hm => (IH m hm).2.1
  have IHmore : ∀ m, m < n → ∀ xs rest, stopHead rest →
      2 * (serListTail xs).length + 1 ≤ m →
      parseMore m (serListTail xs ++ ']' :: rest) = some (xs, rest) :=
    fun m hm => (IH m hm).2.2.1
  have IHpair : ∀ m, m < n → ∀ p rest, stopHead rest → 2 * (serPair p).length ≤ m →
      parsePair1 m (serPair p ++ rest) = some (p, rest) := fun m hm => (IH m hm).2.2.2.1
  have IHpairs : ∀ m, m < n → ∀ ps rest, stopHead rest →
      2 * (serObjItems ps).length + 3 ≤ m →
      parsePairs m (serObjItems ps ++ '}' :: rest) = some (ps, rest) :=
    fun m hm => (IH m hm).2.2.2.2.1
  have IHpmore : ∀ m, m < n → ∀ ps rest, stopHead rest →
      2 * (serObjTail ps).length + 1 ≤ m →
      parsePairsMore m (serObjTail ps ++ '}' :: rest) = some (ps, rest) :=
    fun m hm => (IH m hm).2.2.2.2.2
  refine ⟨?_, ?_, ?_, ?_, ?_, ?_⟩
  · -- parseVal
    intro j rest hrest hn
    cases j with
    | jnull =>
      simp only [serialize, List.length_cons, List.length_nil] at hn
      obtain ⟨m, rfl⟩ : ∃ m, n = m + 1 := ⟨n - 1, by omega⟩
      show parseVal (m + 1) ('n' :: 'u' :: 'l' :: 'l' :: rest) = some (Json.jnull, rest)
      unfold parseVal
      rw [if_pos rfl, show 'u' :: 'l' :: 'l' :: rest = ['u', 'l', 'l'] ++ rest from rfl,
        dropLit_append]
      rfl
    | jbool b =>
      cases b
      · simp only [serialize, List.length_cons, List.length_nil] at hn
        obtain ⟨m, rfl⟩ : ∃ m, n = m + 1 := ⟨n - 1, by omega⟩
        show parseVal (m + 1) ('f' :: 'a' :: 'l' :: 's' :: 'e' :: rest) =
          some (Json.jbool false, rest)
        unfold parseVal
        rw [if_neg (by decide), if_neg (by decide), if_pos rfl,
          show 'a' :: 'l' :: 's' :: 'e' :: rest = ['a', 'l', 's', 'e'] ++ rest from rfl,
          dropLit_append]
        rfl
      · simp only [serialize, List.length_cons, List.length_nil] at hn
        obtain ⟨m, rfl⟩ : ∃ m, n = m + 1 := ⟨n - 1, by omega⟩
        show parseVal (m + 1) ('t' :: 'r' :: 'u' :: 'e' :: rest) = some (Json.jbool true, rest)
        unfold parseVal
        rw [if_neg (by decide), if_pos rfl,
          show 'r' :: 'u' :: 'e' :: rest = ['r', 'u', 'e'] ++ rest from rfl, dropLit_append]
        rfl
    | jnum i =>
      have hlen : 1 ≤ (serNum i).length := serialize_length_pos (Json.jnum i)
      obtain ⟨m, rfl⟩ : ∃ m, n = m + 1 := ⟨n - 1, by
        simp only [serialize] at hn; omega⟩
      show parseVal (m + 1) (serNum i ++ rest) = some (Json.jnum i, rest)
      unfold serNum
      by_cases hlt : i < 0
      · rw [if_pos hlt]
        simp only [List.cons_append]
        unfold parseVal
        rw [if_neg (by decide), if_neg (by decide), if_neg (by decide), if_neg (by decide),
          if_neg (by decide), if_neg (by decide), if_pos rfl,
          parseNeg_serNat i.natAbs rest hrest]
        have hcast : -((i.natAbs : Nat) : Int) = i := by omega
        rw [hcast]
      · rw [if_neg hlt]
        obtain ⟨c, cs, hser, hdig⟩ := serNat_shape i.toNat
        have hr := parseNatAux_serNat i.toNat rest hrest
        rw [hser] at hr ⊢
        simp only [List.cons_append] at hr ⊢
        obtain ⟨ne1, ne2, ne3, ne4, ne5, ne6, ne7, _, _, _⟩ := isDigit_ne_marks hdig
        unfold parseVal
        rw [if_neg ne1, if_neg ne2, if_neg ne3, if_neg ne4, if_neg ne5, if_neg ne6,
          if_neg ne7, if_pos hdig]
        simp only [hr]
        have hcast : ((i.toNat : Nat) : Int) = i := by omega
        rw [hcast]
    | jstr s =>
      simp only [serialize, List.length_cons] at hn
      obtain ⟨m, rfl⟩ : ∃ m, n = m + 1 := ⟨n - 1, by omega⟩
      show parseVal (m + 1) ('"' :: ((escChars s ++ ['"']) ++ rest)) =
        some (Json.jstr s, rest)
      rw [show (escChars s ++ ['"']) ++ rest = escChars s ++ '"' :: rest by simp]
      unfold parseVal
      rw [if_neg (by decide), if_neg (by decide), if_neg (by decide), if_pos rfl,
        parseStrBody_esc]
      rfl
    | jarr xs =>
      simp only [serialize, List.length_cons, List.length_append, List.length_nil] at hn
      obtain ⟨m, rfl⟩ : ∃ m, n = m + 1 := ⟨n - 1, by omega⟩
      show parseVal (m + 1) ('[' :: ((serListItems xs ++ [']']) ++ rest)) =
        some (Json.jarr xs, rest)
      rw [show (serListItems xs ++ [']']) ++ rest = serListItems xs ++ ']' :: rest by simp]
      unfold parseVal
      rw [if_neg (by decide), if_neg (by decide), if_neg (by decide), if_neg (by decide),
        if_pos rfl, IHitems m (by omega) xs rest hrest (by omega)]
      rfl
    | jobj ps =>
      simp only [serialize, List.length_cons, List.length_append, List.length_nil] at hn
      obtain ⟨m, rfl⟩ : ∃ m, n = m + 1 := ⟨n - 1, by omega⟩
      show parseVal (m + 1) ('{' :: ((serObjItems ps ++ ['}']) ++ rest)) =
        some (Json.jobj ps, rest)
      rw [show (serObjItems ps ++ ['}']) ++ rest = serObjItems ps ++ '}' :: rest by simp]
      unfold parseVal
      rw [if_neg (by decide), if_neg (by decide), if_neg (by decide), if_neg (by decide),
        if_neg (by decide), if_pos rfl, IHpairs m (by omega) ps rest hrest (by omega)]
      rfl
  · -- parseItems
    intro xs rest hrest hn
    cases xs with
    | nil =>
      obtain ⟨m, rfl⟩ : ∃ m, n = m + 1 := ⟨n - 1, by omega⟩
      show parseItems (m + 1) (']' :: rest) = some ([], rest)
      unfold parseItems
      rw [if_pos rfl]
    | cons x xs =>
      simp only [serListItems, List.length_append] at hn
      have hx := serialize_length_pos x
      obtain ⟨m, rfl⟩ : ∃ m, n = m + 1 := ⟨n - 1, by omega⟩
      obtain ⟨c, cs, hser, hne1, hne2⟩ := serialize_head x
      have hval := IHval m (by omega) x (serListTail xs ++ ']' :: rest)
        (stopHead_listTail xs rest) (by omega)
      rw [hser] at hval
      simp only [List.cons_append] at hval
      show parseItems (m + 1) ((serialize x ++ serListTail xs) ++ ']' :: rest) =
        some (x :: xs, rest)
      rw [show (serialize x ++ serListTail xs) ++ ']' :: rest =
        serialize x ++ (serListTail xs ++ ']' :: rest) by simp, hser]
      simp only [List.cons_append]
      unfold parseItems
      rw [if_neg hne1, hval]
      simp only []
      rw [IHmore m (by omega) xs rest hrest (by omega)]
      rfl
  · -- parseMore
    intro xs rest hrest hn
    cases xs with
    | nil =>
      obtain ⟨m, rfl⟩ : ∃ m, n = m + 1 := ⟨n - 1, by omega⟩
      show parseMore (m + 1) (']' :: rest) = some ([], rest)
      unfold parseMore
      rw [if_pos rfl]
    | cons x xs =>
      simp only [serListTail, List.length_cons, List.length_append] at hn
      obtain ⟨m, rfl⟩ : ∃ m, n = m + 1 := ⟨n - 1, by omega⟩
      have hval := IHval m (by omega) x (serListTail xs ++ ']' :: rest)
        (stopHead_listTail xs rest) (by omega)
      show parseMore (m + 1) ((',' :: (serialize x ++ serListTail xs)) ++ ']' :: rest) =
        some (x :: xs, rest)
      rw [show (',' :: (serialize x ++ serListTail xs)) ++ ']' :: rest =
        ',' :: (serialize x ++ (serListTail xs ++ ']' :: rest)) by simp]
      unfold parseMore
      rw [if_neg (by decide), if_pos rfl, hval]
      simp only []
      rw [IHmore m (by omega) xs rest hrest (by omega)]
      rfl
  · -- parsePair1
    intro p rest hrest hn
    obtain ⟨k, v⟩ := p
    simp only [serPair, List.length_cons, List.length_append] at hn
    have hv := serialize_length_pos v
    obtain ⟨m, rfl⟩ : ∃ m, n = m + 1 := ⟨n - 1, by omega⟩
    have hval := IHval m (by omega) v rest hrest (by omega)
    show parsePair1 (m + 1) (('"' :: (escChars k ++ '"' :: ':' :: serialize v)) ++ rest) =
      some ((k, v), rest)
    rw [show ('"' :: (escChars k ++ '"' :: ':' :: serialize v)) ++ rest =
      '"' :: (escChars k ++ '"' :: (':' :: (serialize v ++ rest))) by simp]
    unfold parsePair1
    rw [if_pos rfl, parseStrBody_esc]
    show (if ':' = ':' then
        match parseVal m (serialize v ++ rest) with
        | some (v', rest3) => some ((k, v'), rest3)
        | none => none
      else none) = some ((k, v), rest)
    rw [if_pos rfl, hval]
  · -- parsePairs
    intro ps rest hrest hn
    cases ps with
    | nil =>
      obtain ⟨m, rfl⟩ : ∃ m, n = m + 1 := ⟨n - 1, by omega⟩
      show parsePairs (m + 1) ('}' :: rest) = some ([], rest)
      unfold parsePairs
      rw [if_pos rfl]
    | cons p ps =>
      obtain ⟨k, v⟩ := p
      simp only [serObjItems, serPair, List.length_append, List.length_cons] at hn
      obtain ⟨m, rfl⟩ : ∃ m, n = m + 1 := ⟨n - 1, by omega⟩
      have hlenp : 2 * (serPair (k, v)).length ≤ m := by
        simp only [serPair, List.length_cons, List.length_append]
        omega
      have hpair := IHpair m (by omega) (k, v) (serObjTail ps ++ '}' :: rest)
        (stopHead_objTail ps rest) hlenp
      simp only [serPair, List.cons_append] at hpair
      show parsePairs (m + 1)
        ((('"' :: (escChars k ++ '"' :: ':' :: serialize v)) ++ serObjTail ps) ++
          '}' :: rest) = some ((k, v) :: ps, rest)
      rw [show (('"' :: (escChars k ++ '"' :: ':' :: serialize v)) ++ serObjTail ps) ++
          '}' :: rest =
        '"' :: ((escChars k ++ '"' :: ':' :: serialize v) ++
          (serObjTail ps ++ '}' :: rest)) by simp]
      unfold parsePairs
      rw [if_neg (by decide), hpair]
      simp only []
      rw [IHpmore m (by omega) ps rest hrest (by omega)]
      rfl
  · -- parsePairsMore
    intro ps rest hrest hn
    cases ps with
    | nil =>
      obtain ⟨m, rfl⟩ : ∃ m, n = m + 1 := ⟨n - 1, by omega⟩
      show parsePairsMore (m + 1) ('}' :: rest) = some ([], rest)
      unfold parsePairsMore
      rw [if_pos rfl]
    | cons p ps =>
      obtain ⟨k, v⟩ := p
      simp only [serObjTail, serPair, List.length_append, List.length_cons] at hn
      obtain ⟨m, rfl⟩ : ∃ m, n = m + 1 := ⟨n - 1, by omega⟩
      have hlenp : 2 * (serPair (k, v)).length ≤ m := by
        simp only [serPair, List.length_cons, List.length_append]
        omega
      have hpair := IHpair m (by omega) (k, v) (serObjTail ps ++ '}' :: rest)
        (stopHead_objTail ps rest) hlenp
      show parsePairsMore (m + 1)
        ((',' :: (('"' :: (escChars k ++ '"' :: ':' :: serialize v)) ++ serObjTail ps)) ++
          '}' :: rest) = some ((k, v) :: ps, rest)
      rw [show (',' :: (('"' :: (escChars k ++ '"' :: ':' :: serialize v)) ++
          serObjTail ps)) ++ '}' :: rest =
        ',' :: (serPair (k, v) ++ (serObjTail ps ++ '}' :: rest)) by simp [serPair]]
      unfold parsePairsMore
      rw [if_neg (by decide), if_pos rfl, hpair]
      simp only []
      rw [IHpmore m (by omega) ps rest hrest (by omega)]
      rfl

/-- Round-trip of the modelled JSON builtins: parsing a serialized value
yields the value back. -/
theorem parseJson_serialize (j : Json) : parseJson (serialize j) = Except.ok j := by
  have h := (parse_ser_all (2 * (serialize j).length + 2)).1 j [] stopHead_nil (by omega)
  rw [List.append_nil] at h
  unfold parseJson
  rw [h]


/-! ### Supporting lemmas about the pipeline -/

theorem exceptMap_ok_length {f : α → Except String β} {l : List α} {ys : List β}
    (h : exceptMap f l = Except.ok ys) : ys.length = l.length := by
  induction l generalizing ys with
  | nil => simp only [exceptMap] at h; cases h; rfl
  | cons x xs ih =>
    simp only [exceptMap] at h
    rcases hfx : f x with e | y <;> rw [hfx] at h
    · cases h
    · rcases hxs : exceptMap f xs with e | ys' <;> rw [hxs] at h
      · cases h
      · cases h
        simp [ih hxs]

theorem exceptMap_ok_mem {f : α → Except String β} {l : List α} {ys : List β}
    (h : exceptMap f l = Except.ok ys) : ∀ y ∈ ys, ∃ x ∈ l, f x = Except.ok y := by
  induction l generalizing ys with
  | nil => simp only [exceptMap] at h; cases h; simp
  | cons x xs ih =>
    simp only [exceptMap] at h
    rcases hfx : f x with e | y <;> rw [hfx] at h
    · cases h
    · rcases hxs : exceptMap f xs with e | ys' <;> rw [hxs] at h
      · cases h
      · cases h
        intro z hz
        rcases List.mem_cons.mp hz with rfl | hz'
        · exact ⟨x, List.mem_cons_self x xs, hfx⟩
        · obtain ⟨x', hx', hfx'⟩ := ih hxs z hz'
          exact ⟨x', List.mem_cons_of_mem x hx', hfx'⟩

theorem exceptMap_isOk {f : α → Except String β} (l : List α) :
    (exceptMap f l).isOk = l.all fun x => (f x).isOk := by
  induction l with
  | nil => rfl
  | cons x xs ih =>
    simp only [exceptMap, List.all_cons]
    rcases hfx : f x with e | y
    · rfl
    · rcases hxs : exceptMap f xs with e | ys
      · rw [hxs] at ih; simpa [Except.isOk, Except.toBool] using ih.symm
      · rw [hxs] at ih; simpa [Except.isOk, Except.toBool] using ih.symm

theorem exceptMap_pointwise {f : α → Except String β} {g : α → β} {l : List α}
    (h : ∀ x ∈ l, f x = Except.ok (g x)) : exceptMap f l = Except.ok (l.map g) := by
  induction l with
  | nil => rfl
  | cons x xs ih =>
    simp only [exceptMap, h x (List.mem_cons_self x xs),
      ih fun y hy => h y (List.mem_cons_of_mem x hy), List.map_cons]

theorem mem_insertTsDesc {r x : StoredLog} {l : List StoredLog}
    (h : x ∈ insertTsDesc r l) : x = r ∨ x ∈ l := by
  induction l with
  | nil => simpa [insertTsDesc] using h
  | cons y ys ih =>
    unfold insertTsDesc at h
    by_cases hc : y.timestamp < r.timestamp
    · rw [if_pos hc] at h
      rcases List.mem_cons.mp h with rfl | h'
      · exact Or.inl rfl
      · exact Or.inr h'
    · rw [if_neg hc] at h
      rcases List.mem_cons.mp h with rfl | h'
      · exact Or.inr (List.mem_cons_self x ys)
      · rcases ih h' with rfl | h2
        · exact Or.inl rfl
        · exact Or.inr (List.mem_cons_of_mem y h2)

theorem mem_sortByTsDesc {x : StoredLog} {l : List StoredLog}
    (h : x ∈ sortByTsDesc l) : x ∈ l := by
  induction l with
  | nil => simp [sortByTsDesc] at h
  | cons y ys ih =>
    rcases mem_insertTsDesc (h : x ∈ insertTsDesc y (sortByTsDesc ys)) with rfl | h'
    · exact List.mem_cons_self x ys
    · exact List.mem_cons_of_mem y (ih h')

theorem length_insertTsDesc (r : StoredLog) (l : List StoredLog) :
    (insertTsDesc r l).length = l.length + 1 := by
  induction l with
  | nil => rfl
  | cons y ys ih =>
    unfold insertTsDesc
    by_cases hc : y.timestamp < r.timestamp
    · rw [if_pos hc]; rfl
    · rw [if_neg hc]; simp [ih]

theorem length_sortByTsDesc (l : List StoredLog) :
    (sortByTsDesc l).length = l.length := by
  induction l with
  | nil => rfl
  | cons y ys ih =>
    show (insertTsDesc y (sortByTsDesc ys)).length = ys.length + 1
    rw [length_insertTsDesc, ih]

/-- Every row selected by `findMany` is a matching row of the store. -/
theorem mem_findMany {db : List StoredLog} {w : WhereClause} {skip take' : Nat}
    {r : StoredLog} (h : r ∈ findMany db w skip take') :
    r ∈ db ∧ rowMatches w r = true := by
  have h1 : r ∈ db.filter (rowMatches w) :=
    mem_sortByTsDesc (List.mem_of_mem_drop (List.mem_of_mem_take h))
  exact ⟨List.mem_of_mem_filter h1, List.of_mem_filter h1⟩

/-- The `where` object built by the query constrains `tenantId` to exactly
the requested tenant. -/
theorem rowMatches_tenant {w : WhereClause} {r : StoredLog}
    (h : rowMatches w r = true) : r.tenantId = w.tenantId := by
  unfold rowMatches at h
  simp only [Bool.and_eq_true, beq_iff_eq] at h
  exact h.1.1.1.1.1

theorem deserializeRow_tenant {r : StoredLog} {q : QueryRow}
    (h : deserializeRow r = Except.ok q) : q.tenantId = r.tenantId := by
  unfold deserializeRow at h
  rcases hch : parseStoredField r.changes with e | ch <;> rw [hch] at h
  · cases h
  · rcases hmd : parseStoredField r.metadata with e | md <;> rw [hmd] at h
    · cases h
    · cases h; rfl

/-- Deserializing a row with absent (or empty, hence falsy) stored
payloads succeeds and degrades both fields to `null`. -/
theorem deserializeRow_clean {r : StoredLog}
    (hch : r.changes = none ∨ r.changes = some [])
    (hmd : r.metadata = none ∨ r.metadata = some []) :
    deserializeRow r = Except.ok (cleanQueryRow r) := by
  have h1 : parseStoredField r.changes = Except.ok none := by
    rcases hch with h | h <;> rw [h] <;> rfl
  have h2 : parseStoredField r.metadata = Except.ok none := by
    rcases hmd with h | h <;> rw [h] <;> rfl
  unfold deserializeRow
  rw [h1, h2]
  rfl

theorem beq_eq_decide_str (a b : String) : (a == b) = decide (a = b) := by
  by_cases h : a = b <;> simp [h]

theorem contains_admin_iff (x : String) :
    ((["SUPER_ADMIN", "ADMIN"] : List String).contains x = true) ↔
      (x = "SUPER_ADMIN" ∨ x = "ADMIN") := by
  simp [List.contains]

theorem parseStoredField_ser (fields : List (List Char × Json)) :
    parseStoredField (some (serialize (Json.jobj fields))) =
      Except.ok (some (Json.jobj fields)) := by
  obtain ⟨c, cs, h, _, _⟩ := serialize_head (Json.jobj fields)
  show (if serialize (Json.jobj fields) = [] then Except.ok none
    else Except.map some (parseJson (serialize (Json.jobj fields)))) =
    Except.ok (some (Json.jobj fields))
  rw [if_neg (by rw [h]; simp), parseJson_serialize]
  rfl

theorem parseStoredField_entry (o : Option (List (List Char × Json))) :
    parseStoredField (o.map fun fields => serialize (Json.jobj fields)) =
      Except.ok (o.map Json.jobj) := by
  cases o with
  | none => rfl
  | some fields => exact parseStoredField_ser fields

/-- Deserializing a freshly recorded row recovers the caller's structured
payloads exactly. -/
theorem deserializeRow_storedRowOf (entry : AuditLogEntry) (now : Int) :
    deserializeRow (storedRowOf entry now) = Except.ok
      { actionType := entry.actionType, severity := entry.severity,
        userId := entry.userId, tenantId := entry.tenantId,
        targetUserId := entry.targetUserId,
        targetResourceId := entry.targetResourceId,
        targetResourceType := entry.targetResourceType,
        description := entry.description,
        changes := entry.changes.map Json.jobj,
        metadata := entry.metadata.map Json.jobj,
        ipAddress := entry.ipAddress, userAgent := entry.userAgent,
        timestamp := now } := by
  unfold deserializeRow
  rw [show (storedRowOf entry now).changes =
        entry.changes.map (fun fields => serialize (Json.jobj fields)) from rfl,
      show (storedRowOf entry now).metadata =
        entry.metadata.map (fun fields => serialize (Json.jobj fields)) from rfl,
      parseStoredField_entry, parseStoredField_entry]
  rfl

/-- Un-escaping inverts the export's quote-doubling, for every string. -/
theorem csvFieldBody_dup (s : List Char) :
    ∀ rest, headNotQuote rest →
      csvFieldBody (dupQuoteChars s ++ '"' :: rest) = some (s, rest) := by
  induction s with
  | nil =>
    intro rest hrest
    show csvFieldBody ('"' :: rest) = some ([], rest)
    unfold csvFieldBody
    rw [if_pos rfl]
    cases rest with
    | nil => rfl
    | cons d ds =>
      have hd : d ≠ '"' := hrest
      simp only [if_neg hd]
  | cons c cs ih =>
    intro rest hrest
    by_cases hc : c = '"'
    · subst hc
      show csvFieldBody ('"' :: ('"' :: (dupQuoteChars cs ++ '"' :: rest))) =
        some ('"' :: cs, rest)
      unfold csvFieldBody
      rw [if_pos rfl]
      show (if ('"' : Char) = '"' then
          Option.map (fun r => ('"' :: r.1, r.2))
            (csvFieldBody (dupQuoteChars cs ++ '"' :: rest))
        else some ([], '"' :: (dupQuoteChars cs ++ '"' :: rest))) =
        some ('"' :: cs, rest)
      rw [if_pos rfl, ih rest hrest]
      rfl
    · have hdup : dupQuoteChars (c :: cs) = c :: dupQuoteChars cs := by
        show (if c = '"' then '"' :: '"' :: dupQuoteChars cs else c :: dupQuoteChars cs) =
          c :: dupQuoteChars cs
        rw [if_neg hc]
      rw [hdup]
      show csvFieldBody (c :: (dupQuoteChars cs ++ '"' :: rest)) = some (c :: cs, rest)
      unfold csvFieldBody
      rw [if_neg hc, ih rest hrest]
      rfl

theorem not_rowMatches_of_tenant_ne {w : WhereClause} {r : StoredLog}
    (h : r.tenantId ≠ w.tenantId) : rowMatches w r = false := by
  cases hm : rowMatches w r
  · rfl
  · exact (h (rowMatches_tenant hm)).elim

/-- A second `deleteMany` with the same `where` removes nothing. -/
theorem deleteMany_idem (db : List StoredLog) (w : WhereClause) :
    deleteMany (deleteMany db w).2 w = (0, (deleteMany db w).2) := by
  unfold deleteMany
  rw [List.filter_filter, List.filter_filter]
  refine Prod.ext ?_ ?_
  · show (db.filter fun a => rowMatches w a && !(rowMatches w a)).length = 0
    rw [show (fun a => rowMatches w a && !(rowMatches w a)) =
      fun (_ : StoredLog) => false by funext a; exact Bool.and_not_self _]
    rw [List.filter_false]
    rfl
  · show (db.filter fun a => !(rowMatches w a) && !(rowMatches w a)) = _
    congr 1
    funext a
    exact Bool.and_self _

/-- The retention sweep's `where` object evaluates to the spec's predicate:
same tenant and strictly older than the cutoff. -/
theorem rowMatches_delete (t : String) (cutoff : Int) (r : StoredLog) :
    rowMatches
      { tenantId := t, userId := none, actionType := none, targetUserId := none,
        severity := none,
        timestampCond := some { gte := none, lte := none, lt := some cutoff } } r =
      (decide (r.tenantId = t) && decide (r.timestamp < cutoff)) := by
  unfold rowMatches
  simp only [Bool.and_true, Bool.true_and, beq_eq_decide_str]

/-! ### Claim theorems -/

/-- C1: every `where` object built by `queryAuditLogs` and `deleteOldLogs`
constrains `tenantId` to the requested tenant, so a query never returns a
row of another tenant and the retention sweep never removes one, for any
combination of the other filter fields. -/
theorem claim_tenant_isolation :
    (∀ (filter : AuditLogFilter) (db : List StoredLog) (res : List QueryRow)
        (q : QueryRow),
      queryAuditLogs db filter = Except.ok res → q ∈ res →
        q.tenantId = filter.tenantId) ∧
    (∀ (db : List StoredLog) (now : Int) (t : String) (rd : Nat) (r : StoredLog),
      r ∈ db → r.tenantId ≠ t → r ∈ (deleteOldLogs db now t rd).2) := by
  constructor
  · intro filter db res q h hq
    obtain ⟨r, hrmem, hdr⟩ := exceptMap_ok_mem h q hq
    have hmatch := (mem_findMany hrmem).2
    have ht : r.tenantId = (buildWhere filter).tenantId := rowMatches_tenant hmatch
    rw [deserializeRow_tenant hdr, ht]
    rfl
  · intro db now t rd r hmem hne
    show r ∈ db.filter _
    refine List.mem_filter.mpr ⟨hmem, ?_⟩
    rw [not_rowMatches_of_tenant_ne hne]
    rfl

/-- C1 witness: a concrete query whose hypotheses hold. -/
theorem claim_tenant_isolation_witness :
    queryAuditLogs [cleanRow] badFilter = Except.ok [cleanQueryRow cleanRow] ∧
    (cleanQueryRow cleanRow) ∈ [cleanQueryRow cleanRow] ∧
    (cleanQueryRow cleanRow).tenantId = badFilter.tenantId :=
  ⟨rfl, List.mem_singleton.mpr rfl,
    claim_tenant_isolation.1 badFilter [cleanRow] [cleanQueryRow cleanRow]
      (cleanQueryRow cleanRow) rfl (List.mem_singleton.mpr rfl)⟩

/-- C2 counterexample: a stored row whose `changes` string is `"{"` (not
valid JSON) makes `queryAuditLogs` fail as a whole instead of degrading
the field to `null` — the source calls `JSON.parse` with no `try`/`catch`. -/
theorem claim_malformed_counterexample :
    queryAuditLogs [badRow] badFilter = Except.error "malformed JSON" := rfl

/-- C2 amended: `queryAuditLogs` succeeds exactly when every row of the
selected page deserializes; a `null` or empty (falsy) stored payload
degrades to `null`, but a non-empty malformed payload aborts the whole
query with an error. -/
theorem claim_malformed_amended :
    ∀ (db : List StoredLog) (f : AuditLogFilter),
      ((queryAuditLogs db f).isOk =
        (findMany db (buildWhere f) (effOffset f) (effLimit f)).all
          fun r => (deserializeRow r).isOk) ∧
      (∀ r : StoredLog, (r.changes = none ∨ r.changes = some []) →
        (r.metadata = none ∨ r.metadata = some []) →
        deserializeRow r = Except.ok (cleanQueryRow r)) := by
  intro db f
  exact ⟨exceptMap_isOk _, fun r hch hmd => deserializeRow_clean hch hmd⟩

/-- C2 amended witness. -/
theorem claim_malformed_amended_witness :
    (cleanRow.changes = none ∨ cleanRow.changes = some []) ∧
    deserializeRow cleanRow = Except.ok (cleanQueryRow cleanRow) :=
  ⟨Or.inl rfl,
    (claim_malformed_amended [] badFilter).2 cleanRow (Or.inl rfl) (Or.inl rfl)⟩

/-- C3: `logAuditEvent` returns normally for every behaviour of the store's
`create`, including a failing one: the failure is caught inside the
recorder (reported only to `console.error`) and never propagated. -/
theorem claim_log_never_throws (db : List StoredLog) (now : Int)
    (entry : AuditLogEntry) (storeFails : Bool) :
    logAuditEvent db now entry storeFails =
      Except.ok (if storeFails then db else db ++ [storedRowOf entry now]) := by
  unfold logAuditEvent prismaCreate
  cases storeFails <;> rfl

/-- C5: `deleteOldLogs` deletes exactly the requested tenant's entries
strictly older than `now − retentionDays` days, returns their count, and an
immediate second call with the same arguments deletes zero more entries. -/
theorem claim_retention_sweep (db : List StoredLog) (now : Int) (t : String)
    (rd : Nat) :
    (deleteOldLogs db now t rd).2 =
      db.filter (fun r =>
        !(decide (r.tenantId = t) &&
          decide (r.timestamp < now - (rd : Int) * msPerDay))) ∧
    (deleteOldLogs db now t rd).1 =
      (db.filter fun r =>
        decide (r.tenantId = t) &&
          decide (r.timestamp < now - (rd : Int) * msPerDay)).length ∧
    deleteOldLogs (deleteOldLogs db now t rd).2 now t rd =
      (0, (deleteOldLogs db now t rd).2) := by
  refine ⟨?_, ?_, ?_⟩
  · show db.filter _ = db.filter _
    exact List.filter_congr fun r _ => by
      rw [rowMatches_delete t (now - (rd : Int) * msPerDay) r]
  · show (db.filter _).length = _
    congr 1
    exact List.filter_congr fun r _ =>
      rowMatches_delete t (now - (rd : Int) * msPerDay) r
  · exact deleteMany_idem db _

/-- C6: `logPermissionChange` records nothing when both lists are empty;
with any addition present it records exactly one `PERMISSION_GRANTED`
entry (even when removals are also present); with only removals it records
exactly one `PERMISSION_REVOKED` entry. -/
theorem claim_permission_change (db : List StoredLog) (now : Int)
    (u t tgt : String) (added removed : List String)
    (md : Option (List (List Char × Json))) :
    ((added = [] ∧ removed = []) →
      logPermissionChange db now u t tgt added removed md false = Except.ok db) ∧
    (added ≠ [] → ∃ row : StoredLog,
      logPermissionChange db now u t tgt added removed md false =
        Except.ok (db ++ [row]) ∧
      row.actionType = AuditActionType.PERMISSION_GRANTED) ∧
    ((added = [] ∧ removed ≠ []) → ∃ row : StoredLog,
      logPermissionChange db now u t tgt added removed md false =
        Except.ok (db ++ [row]) ∧
      row.actionType = AuditActionType.PERMISSION_REVOKED) := by
  refine ⟨?_, ?_, ?_⟩
  · rintro ⟨rfl, rfl⟩
    rfl
  · intro h
    have hlen : 0 < added.length := List.length_pos.mpr h
    have hc : (!(decide (added.length > 0) || decide (removed.length > 0))) = false := by
      rw [decide_eq_true hlen]
      rfl
    unfold logPermissionChange
    dsimp only
    rw [hc, if_neg (by decide : ¬ (false = true))]
    refine ⟨_, rfl, ?_⟩
    show (if added.length > 0 then AuditActionType.PERMISSION_GRANTED
      else AuditActionType.PERMISSION_REVOKED) = AuditActionType.PERMISSION_GRANTED
    rw [if_pos hlen]
  · rintro ⟨rfl, hr⟩
    have hlen : 0 < removed.length := List.length_pos.mpr hr
    have hc : (!(decide (([] : List String).length > 0) || decide (removed.length > 0)))
        = false := by
      rw [decide_eq_true hlen]
      rfl
    unfold logPermissionChange
    dsimp only
    rw [hc, if_neg (by decide : ¬ (false = true))]
    refine ⟨_, rfl, ?_⟩
    show (if ([] : List String).length > 0 then AuditActionType.PERMISSION_GRANTED
      else AuditActionType.PERMISSION_REVOKED) = AuditActionType.PERMISSION_REVOKED
    rw [if_neg (by decide : ¬ (([] : List String).length > 0))]

/-- C6 witness: only removals present records one `PERMISSION_REVOKED`. -/
theorem claim_permission_change_witness :
    ∃ row : StoredLog,
      logPermissionChange [] 0 "u" "t" "bob" [] ["X"] none false =
        Except.ok ([] ++ [row]) ∧
      row.actionType = AuditActionType.PERMISSION_REVOKED :=
  (claim_permission_change [] 0 "u" "t" "bob" [] ["X"] none).2.2
    ⟨rfl, by decide⟩

/-- C7: `logRoleChange` always records one entry — also when `fromRole`
equals `toRole` — with severity `CRITICAL` exactly when the destination
role is `SUPER_ADMIN` or `ADMIN`, and `INFO` otherwise. -/
theorem claim_role_change_severity (db : List StoredLog) (now : Int)
    (u t tgt fromRole toRole : String) (reason : Option String) :
    ∃ row : StoredLog,
      logRoleChange db now u t tgt fromRole toRole reason false =
        Except.ok (db ++ [row]) ∧
      row.actionType = AuditActionType.ROLE_CHANGED ∧
      row.severity = (if toRole = "SUPER_ADMIN" ∨ toRole = "ADMIN" then
        AuditSeverity.CRITICAL else AuditSeverity.INFO) := by
  refine ⟨_, rfl, rfl, ?_⟩
  show (if (["SUPER_ADMIN", "ADMIN"] : List String).contains toRole = true then
    AuditSeverity.CRITICAL else AuditSeverity.INFO) = _
  by_cases h : toRole = "SUPER_ADMIN" ∨ toRole = "ADMIN"
  · rw [if_pos ((contains_admin_iff toRole).mpr h), if_pos h]
  · rw [if_neg (fun hc => h ((contains_admin_iff toRole).mp hc)), if_neg h]

/-- C10: an explicit `limit: 0` (and `offset: 0`) is falsy and falls
through to the defaults — the query behaves exactly as if they were
unspecified, returning up to 100 entries rather than zero. -/
theorem claim_limit_zero_defaults (db : List StoredLog) (f : AuditLogFilter) :
    queryAuditLogs db { f with limit := some 0, offset := some 0 } =
      queryAuditLogs db { f with limit := none, offset := none } ∧
    (match queryAuditLogs db { f with limit := some 0, offset := some 0 } with
     | Except.ok res => res.length ≤ 100
     | Except.error _ => True) := by
  constructor
  · rfl
  · rcases h : queryAuditLogs db { f with limit := some 0, offset := some 0 } with e | res
    · trivial
    · have hlen := exceptMap_ok_length h
      have h2 : (findMany db (buildWhere { f with limit := some 0, offset := some 0 })
          (effOffset { f with limit := some 0, offset := some 0 })
          (effLimit { f with limit := some 0, offset := some 0 })).length ≤ 100 := by
        unfold findMany
        rw [List.length_take]
        rw [show effLimit { f with limit := some 0, offset := some 0 } = 100 from rfl]
        exact min_le_left _ _
      show res.length ≤ 100
      rw [hlen]
      exact h2

/-- C4: recording an entry and querying it back (by its tenant and a date
range containing the record time) returns it with every field identical
and the `changes`/`metadata` payloads deep-equal to what was passed in —
the serialize/deserialize round-trip through the opaque stored string is
lossless for every JSON-representable payload. -/
theorem claim_record_query_roundtrip (entry : AuditLogEntry) (now a b : Int)
    (ha : a ≤ now) (hb : now ≤ b) :
    ∃ db1, logAuditEvent [] now entry false = Except.ok db1 ∧
      ∃ q : QueryRow,
        queryAuditLogs db1 (tenantRangeFilter entry.tenantId a b) = Except.ok [q] ∧
        q.changes = entry.changes.map Json.jobj ∧
        q.metadata = entry.metadata.map Json.jobj ∧
        q.actionType = entry.actionType ∧ q.severity = entry.severity ∧
        q.userId = entry.userId ∧ q.tenantId = entry.tenantId ∧
        q.targetUserId = entry.targetUserId ∧
        q.targetResourceId = entry.targetResourceId ∧
        q.targetResourceType = entry.targetResourceType ∧
        q.description = entry.description ∧
        q.ipAddress = entry.ipAddress ∧ q.userAgent = entry.userAgent ∧
        q.timestamp = now := by
  refine ⟨[storedRowOf entry now], rfl, ?_⟩
  have hm : rowMatches (buildWhere (tenantRangeFilter entry.tenantId a b))
      (storedRowOf entry now) = true := by
    show ((entry.tenantId == entry.tenantId) && true && true && true && true &&
      (decide (a ≤ now) && decide (now ≤ b) && true)) = true
    rw [beq_self_eq_true, decide_eq_true ha, decide_eq_true hb]
    rfl
  have hfl : List.filter
      (rowMatches (buildWhere (tenantRangeFilter entry.tenantId a b)))
      [storedRowOf entry now] = [storedRowOf entry now] := by
    simp [hm]
  have hfind : findMany [storedRowOf entry now]
      (buildWhere (tenantRangeFilter entry.tenantId a b))
      (effOffset (tenantRangeFilter entry.tenantId a b))
      (effLimit (tenantRangeFilter entry.tenantId a b)) = [storedRowOf entry now] := by
    unfold findMany
    rw [hfl]
    rfl
  have hq : queryAuditLogs [storedRowOf entry now]
      (tenantRangeFilter entry.tenantId a b) = Except.ok
        [{ actionType := entry.actionType, severity := entry.severity,
           userId := entry.userId, tenantId := entry.tenantId,
           targetUserId := entry.targetUserId,
           targetResourceId := entry.targetResourceId,
           targetResourceType := entry.targetResourceType,
           description := entry.description,
           changes := entry.changes.map Json.jobj,
           metadata := entry.metadata.map Json.jobj,
           ipAddress := entry.ipAddress, userAgent := entry.userAgent,
           timestamp := now }] := by
    unfold queryAuditLogs
    rw [hfind]
    unfold exceptMap
    rw [deserializeRow_storedRowOf]
    rfl
  exact ⟨_, hq, rfl, rfl, rfl, rfl, rfl, rfl, rfl, rfl, rfl, rfl, rfl, rfl, rfl⟩

/-- C4 witness: a concrete record/query round-trip through nested JSON. -/
theorem claim_record_query_roundtrip_witness :
    (0 : Int) ≤ 5 ∧ (5 : Int) ≤ 9 ∧
    (∃ db1, logAuditEvent [] 5 sampleEntry false = Except.ok db1 ∧
      ∃ q : QueryRow,
        queryAuditLogs db1 (tenantRangeFilter sampleEntry.tenantId 0 9) =
          Except.ok [q] ∧
        q.changes = sampleEntry.changes.map Json.jobj ∧
        q.metadata = sampleEntry.metadata.map Json.jobj ∧
        q.actionType = sampleEntry.actionType ∧ q.severity = sampleEntry.severity ∧
        q.userId = sampleEntry.userId ∧ q.tenantId = sampleEntry.tenantId ∧
        q.targetUserId = sampleEntry.targetUserId ∧
        q.targetResourceId = sampleEntry.targetResourceId ∧
        q.targetResourceType = sampleEntry.targetResourceType ∧
        q.description = sampleEntry.description ∧
        q.ipAddress = sampleEntry.ipAddress ∧ q.userAgent = sampleEntry.userAgent ∧
        q.timestamp = 5) :=
  ⟨by decide, by decide,
    claim_record_query_roundtrip sampleEntry 5 0 9 (by decide) (by decide)⟩

/-- C9: every data cell of an exported CSV row is wrapped in double quotes
with embedded quotes doubled (`Say "hi"` renders as `"Say ""hi"""`), the
quoting is lossless even when a field contains a comma, quote, or line
break (a strict-CSV reader recovers the exact field), missing optional
fields render as empty strings, and the columns are in the fixed order
timestamp, action type, severity, user id, target user id, resource type,
description, IP address. -/
theorem claim_csv_quoting :
    (csvCell "Say \"hi\"" = "\"Say \"\"hi\"\"\"") ∧
    (∀ (s rest : List Char), headNotQuote rest →
      csvFieldParse (csvCellChars s ++ rest) = some (s, rest)) ∧
    (∀ q : QueryRow, q.targetUserId = none → q.targetResourceType = none →
      q.ipAddress = none →
      csvCellsOf q = [isoStringOfMs q.timestamp, actionTypeStr q.actionType,
        severityStr q.severity, q.userId, "", "", q.description, ""]) := by
  refine ⟨rfl, ?_, ?_⟩
  · intro s rest hrest
    show csvFieldParse ('"' :: ((dupQuoteChars s ++ ['"']) ++ rest)) = some (s, rest)
    rw [show (dupQuoteChars s ++ ['"']) ++ rest = dupQuoteChars s ++ '"' :: rest by simp]
    show (if ('"' : Char) = '"' then csvFieldBody (dupQuoteChars s ++ '"' :: rest)
      else none) = some (s, rest)
    rw [if_pos rfl, csvFieldBody_dup s rest hrest]
  · intro q h1 h2 h3
    unfold csvCellsOf
    rw [h1, h2, h3]
    rfl

/-- C9 witness: a field containing a comma, a line break, and quotes reads
back exactly. -/
theorem claim_csv_quoting_witness :
    headNotQuote [','] ∧
    csvFieldParse (csvCellChars "a,b\n\"c\"".data ++ [',']) =
      some ("a,b\n\"c\"".data, [',']) :=
  ⟨by show (',' : Char) ≠ '"'; decide,
    claim_csv_quoting.2.1 "a,b\n\"c\"".data [',']
      (by show (',' : Char) ≠ '"'; decide)⟩

/-- The export pipeline over a store whose rows all carry falsy payloads:
it succeeds and produces one CSV row per selected store row. -/
theorem exportRows_clean (db : List StoredLog) (t : String) (f : AuditLogFilter)
    (hclean : ∀ r ∈ db, r.changes = none ∧ r.metadata = none) :
    exportRows db t (some f) = Except.ok
      (((findMany db (buildWhere (exportFilterOf t (some f)))
        (effOffset (exportFilterOf t (some f)))
        (effLimit (exportFilterOf t (some f)))).map cleanQueryRow).map csvCellsOf) := by
  have hall : ∀ r ∈ findMany db (buildWhere (exportFilterOf t (some f)))
      (effOffset (exportFilterOf t (some f))) (effLimit (exportFilterOf t (some f))),
      deserializeRow r = Except.ok (cleanQueryRow r) := by
    intro r hr
    have hdb := (mem_findMany hr).1
    exact deserializeRow_clean (Or.inl (hclean r hdb).1) (Or.inl (hclean r hdb).2)
  unfold exportRows queryAuditLogs
  rw [exceptMap_pointwise hall]
  rfl

/-- C8 counterexample: with 10,001 matching entries (more than 10,000) and
a caller filter whose `offset` is 2, only 9,999 entries are exported — the
spread `{...filter, tenantId, limit: 10000}` overrides the limit but keeps
the caller's offset. -/
theorem claim_export_cap_counterexample :
    10000 < (bigDb.filter
      (rowMatches (buildWhere (exportFilterOf "t" (some offsetFilter))))).length ∧
    ∃ rows, exportRows bigDb "t" (some offsetFilter) = Except.ok rows ∧
      rows.length = 9999 := by
  have hmatch : rowMatches (buildWhere (exportFilterOf "t" (some offsetFilter)))
      cleanRow = true := rfl
  have hfl : bigDb.filter
      (rowMatches (buildWhere (exportFilterOf "t" (some offsetFilter)))) = bigDb :=
    List.filter_eq_self.mpr fun x hx => by
      rw [List.eq_of_mem_replicate hx]; exact hmatch
  have hlen : bigDb.length = 10001 := List.length_replicate 10001 cleanRow
  constructor
  · rw [hfl, hlen]
    norm_num
  · refine ⟨_, exportRows_clean bigDb "t" offsetFilter (fun r hr => by
      rw [List.eq_of_mem_replicate hr]; exact ⟨rfl, rfl⟩), ?_⟩
    rw [List.length_map, List.length_map]
    unfold findMany
    rw [List.length_take, List.length_drop, length_sortByTsDesc, hfl, hlen]
    rw [show effLimit (exportFilterOf "t" (some offsetFilter)) = 10000 from rfl,
      show effOffset (exportFilterOf "t" (some offsetFilter)) = 2 from rfl]
    omega

/-- C8 amended: the export always queries with `limit: 10000` regardless
of any caller-supplied limit, so at most 10,000 entries are ever exported;
when more than 10,000 entries match, the caller's filter has no offset, and
the selected rows deserialize, exactly 10,000 are exported (a
caller-supplied offset is preserved by the spread and further reduces the
exported count). -/
theorem claim_export_cap_amended :
    (∀ (db : List StoredLog) (t : String) (f : AuditLogFilter) (L : Option Nat),
      exportAuditLogs db t (some { f with limit := L }) =
        exportAuditLogs db t (some f)) ∧
    (∀ (db : List StoredLog) (t : String) (f : Option AuditLogFilter)
        (rows : List (List String)),
      exportRows db t f = Except.ok rows → rows.length ≤ 10000) ∧
    (∀ (db : List StoredLog) (t : String) (f : AuditLogFilter),
      f.offset = none →
      (∀ r ∈ db, r.changes = none ∧ r.metadata = none) →
      10000 ≤ (db.filter
        (rowMatches (buildWhere (exportFilterOf t (some f))))).length →
      ∃ rows, exportRows db t (some f) = Except.ok rows ∧ rows.length = 10000) := by
  refine ⟨?_, ?_, ?_⟩
  · intro db t f L
    rfl
  · intro db t f rows h
    unfold exportRows at h
    rcases hq : queryAuditLogs db (exportFilterOf t f) with e | qs <;> rw [hq] at h
    · simp [Except.map] at h
    · simp only [Except.map] at h
      cases h
      rw [List.length_map]
      have hql := exceptMap_ok_length hq
      rw [hql]
      have hcap : effLimit (exportFilterOf t f) = 10000 := by
        cases f <;> rfl
      unfold findMany
      rw [List.length_take, hcap]
      exact min_le_left _ _
  · intro db t f hoff hclean hge
    refine ⟨_, exportRows_clean db t f hclean, ?_⟩
    rw [List.length_map, List.length_map]
    unfold findMany
    rw [List.length_take, List.length_drop, length_sortByTsDesc]
    have h2 : effOffset (exportFilterOf t (some f)) = 0 := by
      show (match ({ f with tenantId := t, limit := some 10000 }
        : AuditLogFilter).offset with
        | none => 0
        | some o => if o = 0 then 0 else o) = 0
      rw [show ({ f with tenantId := t, limit := some 10000 }
        : AuditLogFilter).offset = f.offset from rfl, hoff]
    rw [show effLimit (exportFilterOf t (some f)) = 10000 from rfl, h2]
    omega

/-- C8 amended witness: 10,001 clean matching rows, no caller offset —
exactly 10,000 exported. -/
theorem claim_export_cap_amended_witness :
    noOffsetFilter.offset = none ∧
    10000 ≤ (bigDb.filter
      (rowMatches (buildWhere (exportFilterOf "t" (some noOffsetFilter))))).length ∧
    ∃ rows, exportRows bigDb "t" (some noOffsetFilter) = Except.ok rows ∧
      rows.length = 10000 := by
  have hmatch : rowMatches (buildWhere (exportFilterOf "t" (some noOffsetFilter)))
      cleanRow = true := rfl
  have hfl : bigDb.filter
      (rowMatches (buildWhere (exportFilterOf "t" (some noOffsetFilter)))) = bigDb :=
    List.filter_eq_self.mpr fun x hx => by
      rw [List.eq_of_mem_replicate hx]; exact hmatch
  have hge : 10000 ≤ (bigDb.filter
      (rowMatches (buildWhere (exportFilterOf "t" (some noOffsetFilter))))).length := by
    rw [hfl]
    show 10000 ≤ (List.replicate 10001 cleanRow).length
    rw [List.length_replicate]
    norm_num
  exact ⟨rfl, hge, claim_export_cap_amended.2.2 bigDb "t" noOffsetFilter rfl
    (fun r hr => by rw [List.eq_of_mem_replicate hr]; exact ⟨rfl, rfl⟩) hge⟩

end AuditSpec
